import Mathlib

/-!
Verification of the azureblob driver (src/blob/azureblob/azureblob.go).

Strings are modelled as `List Char`: the portable layer only hands the driver
valid UTF-8 keys, and Go's `[]rune` conversion of a valid UTF-8 string is
exactly its list of Unicode code points.
-/

set_option maxRecDepth 4000

namespace AzureBlob

/-- Hex digit character, lowercase, as produced by Go's `%#x` formatting. -/
def hexDigitChar (n : Nat) : Char :=
  if n < 10 then Char.ofNat (48 + n) else Char.ofNat (97 + (n - 10))

/-- Modelled from the spec: the escape marker encodes the hex code point of the
escaped rune. `toHexAux` renders `n` in lowercase hex, most significant digit
first, with no leading zeros (`toHexAux fuel 0 = ['0']`). The fuel argument
only bounds the recursion; `fuel = n + 1` always suffices. -/
def toHexAux : Nat → Nat → List Char
  | 0, _ => []
  | fuel + 1, n =>
    if n < 16 then [hexDigitChar n]
    else toHexAux fuel (n / 16) ++ [hexDigitChar (n % 16)]

/-- Lowercase hex rendering of `n`, as in Go's `fmt.Sprintf` with `%#x`
(without the `0x` prefix, which `escapeMarker` adds separately). -/
def toHex (n : Nat) : List Char := toHexAux (n + 1) n

/-- Modelled from the spec: an escaped rune is replaced by the fixed marker
`__0x<hex>__` holding its hex code point. -/
def escapeMarker (c : Char) : List Char :=
  '_' :: '_' :: '0' :: 'x' :: (toHex c.toNat ++ ['_', '_'])

/-- Value of a single hex digit; `none` for a non-hex-digit character.
Both lowercase and uppercase digits are accepted, as in Go's `strconv`. -/
def parseHexDigit (c : Char) : Option Nat :=
  if 48 ≤ c.toNat ∧ c.toNat ≤ 57 then some (c.toNat - 48)
  else if 97 ≤ c.toNat ∧ c.toNat ≤ 102 then some (c.toNat - 87)
  else if 65 ≤ c.toNat ∧ c.toNat ≤ 70 then some (c.toNat - 55)
  else none

/-- Accumulating base-16 parse of a digit string. -/
def parseHexAux : Nat → List Char → Option Nat
  | acc, [] => some acc
  | acc, c :: rest =>
    match parseHexDigit c with
    | some d => parseHexAux (16 * acc + d) rest
    | none => none

/-- Modelled from the spec: parse the hex digits of a marker. The digit string
must be non-empty and the value must fit a 32-bit rune (Go parses it with
`strconv.ParseInt(..., 16, 32)`). -/
def parseHexRune (l : List Char) : Option Nat :=
  match l with
  | [] => none
  | _ :: _ =>
    match parseHexAux 0 l with
    | some n => if n ≤ 2147483647 then some n else none
    | none => none

/-- Modelled from the spec: decoding a code point back to a character. An
invalid scalar value (surrogate or out of range) becomes U+FFFD, as when Go
converts such a rune back into a string. -/
def decodeRune (n : Nat) : Char :=
  if n.isValidChar then Char.ofNat n else Char.ofNat 65533

/-- Modelled from the spec: try to recognise an escape marker `__0x<hex>__` at
the head of the list. On success, returns the decoded code point and the
remainder of the list after the marker. Mirrors the unescape scanner: after
`__0x` it captures characters up to the next `_`, requires a double-underscore
terminator, and parses the captured digits as a 32-bit hex rune. -/
def tryUnescape : List Char → Option (Nat × List Char)
  | c1 :: c2 :: c3 :: c4 :: rest =>
    if c1 = '_' ∧ c2 = '_' ∧ c3 = '0' ∧ c4 = 'x' then
      let digits := rest.takeWhile (fun c => c != '_')
      match rest.drop digits.length with
      | c5 :: c6 :: tail =>
        if c5 = '_' ∧ c6 = '_' then
          match parseHexRune digits with
          | some n => some (n, tail)
          | none => none
        else none
      | _ => none
    else none
  | _ => none

/-- Modelled from the spec: `HexUnescape` scans left to right, reverses the
markers it recognises and passes everything else through unchanged. The fuel
argument only bounds the recursion; since every step consumes at least one
character, `fuel = l.length` always suffices (`hexUnescapeAux_fuel_irrel`). -/
def hexUnescapeAux : Nat → List Char → List Char
  | 0, l => l
  | _ + 1, [] => []
  | fuel + 1, c :: rest =>
    match tryUnescape (c :: rest) with
    | some (n, tail) => decodeRune n :: hexUnescapeAux fuel tail
    | none => c :: hexUnescapeAux fuel rest

/-- Modelled from the spec: `escape.HexUnescape`. -/
def hexUnescape (l : List Char) : List Char := hexUnescapeAux l.length l

/-- Modelled from the spec: the body of `escape.HexEscape`. Walks the rune
list with its absolute index, replacing each rune the predicate selects by its
escape marker. `full` is the complete rune list handed to the predicate, and
`i` the index of the head of `s` within it. -/
def hexEscapeAux (p : List Char → Nat → Bool) (full : List Char) : Nat → List Char → List Char
  | _, [] => []
  | i, c :: rest => (if p full i then escapeMarker c else [c]) ++ hexEscapeAux p full (i + 1) rest

/-- Modelled from the spec: `escape.HexEscape s shouldEscape`. -/
def hexEscape (p : List Char → Nat → Bool) (s : List Char) : List Char :=
  hexEscapeAux p s 0 s

/-- True when the list begins with the four characters `__0x` that open an
escape marker. -/
def startsHexMark : List Char → Bool
  | c1 :: c2 :: c3 :: c4 :: _ => c1 == '_' && c2 == '_' && c3 == '0' && c4 == 'x'
  | _ => false

/-- True when `__0x` occurs anywhere in the list. Keys free of this sequence
are unaffected by unescaping. -/
def hasEscSeq : List Char → Bool
  | [] => false
  | c :: rest => startsHexMark (c :: rest) || hasEscSeq rest

/-- Go's `len(key)`: the UTF-8 byte length of the key string. -/
def utf8Length (key : List Char) : Nat := (key.map Char.utf8Size).sum

/-- The driver's `escapeKey` (azureblob.go lines 855-875): escapes backslash,
control characters (code point below 32, or 127), a trailing slash of a full
key (the source compares the rune index `i` with `len(key)-1`, the byte
length), and the slash closing a `../` sequence. -/
def escapeKey (key : List Char) (isPfx : Bool) : List Char :=
  hexEscape (fun r i =>
    let c := r.getD i ' '
    if c = '\\' then true
    else if c.toNat < 32 ∨ c.toNat = 127 then true
    else if isPfx = false ∧ i = utf8Length key - 1 ∧ c = '/' then true
    else if 1 < i ∧ r.getD i ' ' = '/' ∧ r.getD (i - 1) ' ' = '.' ∧ r.getD (i - 2) ' ' = '.' then true
    else false) key

/-- The driver's `unescapeKey` (azureblob.go lines 877-880). -/
def unescapeKey (key : List Char) : List Char := hexUnescape key

/-! Helper lemmas about the hex rendering and its parse. -/

theorem hexDigitChar_ne_underscore : ∀ n, n < 16 → hexDigitChar n ≠ '_' := by decide

theorem parseHexDigit_hexDigitChar : ∀ n, n < 16 → parseHexDigit (hexDigitChar n) = some n := by
  decide

theorem toHexAux_mem_ne_underscore (fuel : Nat) :
    ∀ n c, c ∈ toHexAux fuel n → c ≠ '_' := by
  induction fuel with
  | zero => intro n c hc; simp [toHexAux] at hc
  | succ fuel ih =>
    intro n c hc
    by_cases h : n < 16
    · simp [toHexAux, h] at hc
      exact hc ▸ hexDigitChar_ne_underscore n h
    · simp [toHexAux, h] at hc
      rcases hc with hc | hc
      · exact ih (n / 16) c hc
      · exact hc ▸ hexDigitChar_ne_underscore (n % 16) (Nat.mod_lt n (by omega))

theorem toHexAux_ne_nil (fuel n : Nat) (h : 0 < fuel) : toHexAux fuel n ≠ [] := by
  cases fuel with
  | zero => omega
  | succ fuel =>
    by_cases h16 : n < 16 <;> simp [toHexAux, h16]

theorem parseHexAux_append (l1 l2 : List Char) :
    ∀ acc, parseHexAux acc (l1 ++ l2) =
      match parseHexAux acc l1 with
      | some m => parseHexAux m l2
      | none => none := by
  induction l1 with
  | nil => intro acc; simp [parseHexAux]
  | cons c rest ih =>
    intro acc
    simp only [List.cons_append, parseHexAux]
    cases parseHexDigit c with
    | some d => exact ih (16 * acc + d)
    | none => rfl

theorem parseHexAux_toHexAux (fuel : Nat) :
    ∀ n acc, n < fuel →
      parseHexAux acc (toHexAux fuel n) =
        some (acc * 16 ^ (toHexAux fuel n).length + n) := by
  induction fuel with
  | zero => intro n acc h; omega
  | succ fuel ih =>
    intro n acc h
    by_cases h16 : n < 16
    · simp [toHexAux, h16, parseHexAux, parseHexDigit_hexDigitChar n h16]
      ring
    · have hdiv : n / 16 < n := Nat.div_lt_self (by omega) (by omega)
      have hfuel : n / 16 < fuel := by omega
      simp only [toHexAux, h16, if_false, ite_false]
      rw [parseHexAux_append, ih (n / 16) acc hfuel]
      have hd : parseHexDigit (hexDigitChar (n % 16)) = some (n % 16) :=
        parseHexDigit_hexDigitChar (n % 16) (Nat.mod_lt n (by omega))
      simp [parseHexAux, hd, List.length_append]
      have : 16 * (n / 16) + n % 16 = n := Nat.div_add_mod n 16
      ring_nf
      omega

theorem parseHexRune_toHex (n : Nat) (h : n ≤ 2147483647) :
    parseHexRune (toHex n) = some n := by
  have hne : toHex n ≠ [] := toHexAux_ne_nil (n + 1) n (by omega)
  have hp : parseHexAux 0 (toHex n) = some n := by
    have := parseHexAux_toHexAux (n + 1) n 0 (by omega)
    simpa [toHex] using this
  rcases hl : toHex n with _ | ⟨c, rest⟩
  · exact absurd hl hne
  · simp only [parseHexRune]
    rw [← hl, hp]
    simp [h]

theorem takeWhile_hex_append (l1 l2 : List Char) (h : ∀ c ∈ l1, c ≠ '_') :
    (l1 ++ '_' :: l2).takeWhile (fun c => c != '_') = l1 := by
  induction l1 with
  | nil => simp [List.takeWhile]
  | cons c rest ih =>
    have hc : c ≠ '_' := h c (by simp)
    have hb : (c != '_') = true := bne_iff_ne.mpr hc
    simp only [List.cons_append, List.takeWhile]
    simp [hb, ih (fun x hx => h x (by simp [hx]))]

theorem char_toNat_le (c : Char) : c.toNat ≤ 2147483647 := by
  have h := c.valid
  rcases h with h | h
  · have : c.val.toNat < 55296 := h
    simp only [Char.toNat]
    omega
  · have : c.val.toNat < 1114112 := h.2
    simp only [Char.toNat]
    omega

theorem decodeRune_toNat (c : Char) : decodeRune c.toNat = c := by
  have hv : c.toNat.isValidChar := by
    have := c.valid
    simpa [Char.toNat, UInt32.isValidChar] using this
  simp [decodeRune, hv, Char.ofNat_toNat]

/-! The unescape scanner recognises exactly the markers the escaper inserts. -/

theorem tryUnescape_marker (c : Char) (X : List Char) :
    tryUnescape (escapeMarker c ++ X) = some (c.toNat, X) := by
  have hne : ∀ d ∈ toHex c.toNat, d ≠ '_' := fun d hd =>
    toHexAux_mem_ne_underscore _ _ d hd
  have htake : (toHex c.toNat ++ '_' :: '_' :: X).takeWhile (fun ch => ch != '_') =
      toHex c.toNat := takeWhile_hex_append _ ('_' :: X) hne
  have hdrop : (toHex c.toNat ++ '_' :: '_' :: X).drop (toHex c.toNat).length =
      '_' :: '_' :: X := List.drop_left _ _
  have hshape : escapeMarker c ++ X =
      '_' :: '_' :: '0' :: 'x' :: (toHex c.toNat ++ '_' :: '_' :: X) := by
    simp [escapeMarker]
  rw [hshape]
  simp only [tryUnescape, htake, hdrop]
  simp [parseHexRune_toHex c.toNat (char_toNat_le c)]

theorem tryUnescape_shape {l : List Char} {pr : Nat × List Char}
    (h : tryUnescape l = some pr) :
    ∃ r, l = '_' :: '_' :: '0' :: 'x' :: r := by
  match l with
  | [] => simp [tryUnescape] at h
  | [c1] => simp [tryUnescape] at h
  | [c1, c2] => simp [tryUnescape] at h
  | [c1, c2, c3] => simp [tryUnescape] at h
  | c1 :: c2 :: c3 :: c4 :: rest =>
    by_cases hc : c1 = '_' ∧ c2 = '_' ∧ c3 = '0' ∧ c4 = 'x'
    · obtain ⟨h1, h2, h3, h4⟩ := hc
      subst h1; subst h2; subst h3; subst h4
      exact ⟨rest, rfl⟩
    · simp only [tryUnescape, if_neg hc] at h
      exact absurd h (by simp)

theorem hexEscapeAux_shape (p : List Char → Nat → Bool) (full : List Char) :
    ∀ (rest : List Char) (j : Nat) (r : List Char),
      hexEscapeAux p full j rest = '_' :: '0' :: 'x' :: r →
      ∃ t, rest = '_' :: '0' :: 'x' :: t := by
  intro rest
  match rest with
  | [] => intro j r h; simp [hexEscapeAux] at h
  | r0 :: rest1 =>
    intro j r h
    by_cases hb0 : p full j
    · exfalso
      simp [hexEscapeAux, hb0, escapeMarker] at h
    · simp only [hexEscapeAux, if_neg hb0, List.singleton_append, List.cons.injEq] at h
      obtain ⟨h0, h1⟩ := h
      match rest1 with
      | [] => simp [hexEscapeAux] at h1
      | r1 :: rest2 =>
        by_cases hb1 : p full (j + 1)
        · exfalso
          simp [hexEscapeAux, hb1, escapeMarker] at h1
        · simp only [hexEscapeAux, if_neg hb1, List.singleton_append, List.cons.injEq] at h1
          obtain ⟨h1a, h1b⟩ := h1
          match rest2 with
          | [] => simp [hexEscapeAux] at h1b
          | r2 :: rest3 =>
            by_cases hb2 : p full (j + 2)
            · exfalso
              simp [hexEscapeAux, hb2, escapeMarker] at h1b
            · simp only [hexEscapeAux, if_neg hb2, List.singleton_append,
                List.cons.injEq] at h1b
              exact ⟨rest3, by rw [h0, h1a, h1b.1]⟩

theorem hexUnescapeAux_nil (fuel : Nat) : hexUnescapeAux fuel [] = [] := by
  cases fuel <;> simp [hexUnescapeAux]

theorem hexUnescapeAux_cons_some {c : Char} {l : List Char} {n : Nat} {tail : List Char}
    (h : tryUnescape (c :: l) = some (n, tail)) (fuel : Nat) :
    hexUnescapeAux (fuel + 1) (c :: l) = decodeRune n :: hexUnescapeAux fuel tail := by
  simp [hexUnescapeAux, h]

theorem hexUnescapeAux_cons_none {c : Char} {l : List Char}
    (h : tryUnescape (c :: l) = none) (fuel : Nat) :
    hexUnescapeAux (fuel + 1) (c :: l) = c :: hexUnescapeAux fuel l := by
  simp [hexUnescapeAux, h]

theorem hexUnescapeAux_escape (p : List Char → Nat → Bool) (full : List Char) :
    ∀ (s : List Char), hasEscSeq s = false →
      ∀ (i fuel : Nat), (hexEscapeAux p full i s).length ≤ fuel →
        hexUnescapeAux fuel (hexEscapeAux p full i s) = s := by
  intro s
  induction s with
  | nil => intro _ i fuel _; simp [hexEscapeAux, hexUnescapeAux_nil]
  | cons c rest ih =>
    intro h i fuel hfuel
    have hpair : startsHexMark (c :: rest) = false ∧ hasEscSeq rest = false := by
      simpa [hasEscSeq] using h
    obtain ⟨hmark, hrest⟩ := hpair
    by_cases hb : p full i
    · have hsh : hexEscapeAux p full i (c :: rest) =
          '_' :: ('_' :: '0' :: 'x' ::
            (toHex c.toNat ++ '_' :: '_' :: hexEscapeAux p full (i + 1) rest)) := by
        simp [hexEscapeAux, hb, escapeMarker]
      cases fuel with
      | zero =>
        rw [hsh] at hfuel
        simp at hfuel
      | succ fuel =>
        have htu : tryUnescape ('_' :: ('_' :: '0' :: 'x' ::
            (toHex c.toNat ++ '_' :: '_' :: hexEscapeAux p full (i + 1) rest))) =
            some (c.toNat, hexEscapeAux p full (i + 1) rest) := by
          have hm := tryUnescape_marker c (hexEscapeAux p full (i + 1) rest)
          simpa [escapeMarker] using hm
        rw [hsh, hexUnescapeAux_cons_some htu fuel, decodeRune_toNat]
        congr 1
        apply ih hrest (i + 1) fuel
        rw [hsh] at hfuel
        simp at hfuel
        omega
    · have hsh : hexEscapeAux p full i (c :: rest) =
          c :: hexEscapeAux p full (i + 1) rest := by
        simp [hexEscapeAux, hb]
      cases fuel with
      | zero =>
        rw [hsh] at hfuel
        simp at hfuel
      | succ fuel =>
        have htu : tryUnescape (c :: hexEscapeAux p full (i + 1) rest) = none := by
          cases htu : tryUnescape (c :: hexEscapeAux p full (i + 1) rest) with
          | none => rfl
          | some pr =>
            exfalso
            obtain ⟨r, hr⟩ := tryUnescape_shape htu
            have hc : c = '_' := by
              have := congrArg (fun l => l.headD ' ') hr
              simpa using this
            have hE : hexEscapeAux p full (i + 1) rest = '_' :: '0' :: 'x' :: r := by
              have := congrArg List.tail hr
              simpa using this
            obtain ⟨t, ht⟩ := hexEscapeAux_shape p full rest (i + 1) r hE
            rw [hc, ht] at hmark
            exact absurd hmark (by simp [startsHexMark])
        rw [hsh, hexUnescapeAux_cons_none htu fuel]
        congr 1
        apply ih hrest (i + 1) fuel
        rw [hsh] at hfuel
        simp at hfuel
        omega

/-- Round trip of the modelled escape machinery: unescaping an escaped string
recovers the original, for any escape predicate, provided the original
contains no `__0x` sequence of its own. -/
theorem hexUnescape_hexEscape (p : List Char → Nat → Bool) (s : List Char)
    (h : hasEscSeq s = false) : hexUnescape (hexEscape p s) = s := by
  unfold hexUnescape hexEscape
  exact hexUnescapeAux_escape p s s h 0 (hexEscapeAux p s 0 s).length (le_refl _)

/-- C1 counterexample: the round trip is not lossless for every key. The key
`__0x41__` contains no character the escaper touches, so it escapes to
itself, but the unescaper recognises it as the marker for `A`:
`unescapeKey (escapeKey "__0x41__" false) = "A" ≠ "__0x41__"`. -/
theorem escapeKey_roundtrip_counterexample :
    unescapeKey (escapeKey ['_', '_', '0', 'x', '4', '1', '_', '_'] false) = ['A'] ∧
      unescapeKey (escapeKey ['_', '_', '0', 'x', '4', '1', '_', '_'] false) ≠
        ['_', '_', '0', 'x', '4', '1', '_', '_'] := by
  constructor
  · decide
  · decide

/-- C1 amended: for every key that does not itself contain the marker-opening
sequence `__0x`, unescaping the escaped form returns the original key with no
information loss. -/
theorem escapeKey_roundtrip_amended (key : List Char) (h : hasEscSeq key = false) :
    unescapeKey (escapeKey key false) = key :=
  hexUnescape_hexEscape _ key h

/-- Witness for the amended C1 round trip at the concrete key `a\`. -/
theorem escapeKey_roundtrip_amended_witness :
    hasEscSeq ['a', '\\'] = false ∧ unescapeKey (escapeKey ['a', '\\'] false) = ['a', '\\'] :=
  ⟨by decide, escapeKey_roundtrip_amended ['a', '\\'] (by decide)⟩

/-- C2 counterexample: the escape transform is not injective on all key pairs.
The distinct keys `\` and `__0x5c__` have the same escaped form `__0x5c__`
(for `isPrefix = false`, refuting the for-every-boolean claim). -/
theorem escapeKey_injective_counterexample :
    escapeKey ['\\'] false = escapeKey ['_', '_', '0', 'x', '5', 'c', '_', '_'] false ∧
      (['\\'] : List Char) ≠ ['_', '_', '0', 'x', '5', 'c', '_', '_'] := by
  constructor
  · decide
  · decide

/-- C2 amended: the escape transform is injective (for either value of
`isPrefix`) on keys that do not contain the marker-opening sequence `__0x`. -/
theorem escapeKey_injective_amended (k1 k2 : List Char) (isPfx : Bool)
    (h1 : hasEscSeq k1 = false) (h2 : hasEscSeq k2 = false)
    (heq : escapeKey k1 isPfx = escapeKey k2 isPfx) : k1 = k2 := by
  have r1 : hexUnescape (escapeKey k1 isPfx) = k1 := hexUnescape_hexEscape _ k1 h1
  have r2 : hexUnescape (escapeKey k2 isPfx) = k2 := hexUnescape_hexEscape _ k2 h2
  rw [← r1, ← r2, heq]

/-- Witness for the amended C2 injectivity at concrete inputs. -/
theorem escapeKey_injective_amended_witness :
    hasEscSeq ['a'] = false ∧ (['a'] : List Char) = ['a'] :=
  ⟨by decide, escapeKey_injective_amended ['a'] ['a'] false (by decide) (by decide) rfl⟩

/-- C3: the code compares the rune index `i` against the byte length
`len(key) - 1`, so for a key with a multi-byte code point before the trailing
slash (here `é/`: two runes, three bytes) the trailing `/` is NOT escaped,
while for the pure-ASCII key `e/` it is. This contradicts the code's own
comment ("Escape trailing / for full keys") and the package documentation. -/
theorem escapeKey_trailing_slash_multibyte_bug :
    escapeKey ['é', '/'] false = ['é', '/'] ∧
      escapeKey ['e', '/'] false = ['e', '_', '_', '0', 'x', '2', 'f', '_', '_'] := by
  constructor
  · decide
  · decide

/-! Error classification (`bucket.ErrorCode`, azureblob.go lines 645-670). -/

/-- Modelled from the spec: the portable error-code taxonomy the classifier
maps into (`gcerrors` is outside src/). -/
inductive GcCode where
  | notFound
  | permissionDenied
  | unknown
  deriving DecidableEq, Repr

/-- An error reaching `ErrorCode`, after `errors.As` matching: either a
structured storage error (`azblob.StorageError`), a structured response error
(`azcore.ResponseError`), or a plain error exposing only its message. Every
variant carries its message; the classifier only reads the message of a plain
error. -/
inductive AzError where
  | storageErr (code : String) (status : Nat) (msg : List Char)
  | respErr (code : String) (status : Nat) (msg : List Char)
  | plainErr (msg : List Char)
  deriving DecidableEq, Repr

/-- True when `pat` occurs as a contiguous substring of the list, as Go's
`strings.Contains`. -/
def containsSubstring (pat : List Char) : List Char → Bool
  | [] => pat.isPrefixOf []
  | c :: rest => pat.isPrefixOf (c :: rest) || containsSubstring pat rest

/-- The message fragment the classifier looks for on plain errors. -/
def noSuchHost : List Char := ['n', 'o', ' ', 's', 'u', 'c', 'h', ' ', 'h', 'o', 's', 't']

/-- Shared tail of `ErrorCode` for both structured variants: `BlobNotFound`
or HTTP 404 map to NotFound, then `AuthenticationFailed` maps to
PermissionDenied, everything else to Unknown. -/
def classifyCodes (code : String) (status : Nat) : GcCode :=
  if code = "BlobNotFound" ∨ status = 404 then .notFound
  else if code = "AuthenticationFailed" then .permissionDenied
  else .unknown

/-- The driver's `ErrorCode`: structured codes are consulted first; a plain
error is classified NotFound when its message contains "no such host"
(invalid storage account manifests as a DNS failure), else Unknown. -/
def errorCode : AzError → GcCode
  | .storageErr code status _ => classifyCodes code status
  | .respErr code status _ => classifyCodes code status
  | .plainErr msg => if containsSubstring noSuchHost msg then .notFound else .unknown

/-- C4: the classifier behaves as the claim's ordered rules describe —
`BlobNotFound` or status 404 give NotFound; otherwise `AuthenticationFailed`
gives PermissionDenied; a plain error whose message contains "no such host"
gives NotFound; everything else gives Unknown. Structured codes are consulted
before the host-lookup fallback: a structured error is never classified via
its message (the last two conjuncts hold for every message, including ones
containing "no such host"). -/
theorem errorCode_classification :
    (∀ code status msg, (code = "BlobNotFound" ∨ status = 404) →
      errorCode (.storageErr code status msg) = .notFound ∧
        errorCode (.respErr code status msg) = .notFound) ∧
    (∀ code status msg, status ≠ 404 → code = "AuthenticationFailed" →
      errorCode (.storageErr code status msg) = .permissionDenied ∧
        errorCode (.respErr code status msg) = .permissionDenied) ∧
    (∀ msg, containsSubstring noSuchHost msg = true →
      errorCode (.plainErr msg) = .notFound) ∧
    (∀ code status msg, code ≠ "BlobNotFound" → code ≠ "AuthenticationFailed" →
      status ≠ 404 →
      errorCode (.storageErr code status msg) = .unknown ∧
        errorCode (.respErr code status msg) = .unknown) ∧
    (∀ msg, containsSubstring noSuchHost msg = false →
      errorCode (.plainErr msg) = .unknown) := by
  refine ⟨?_, ?_, ?_, ?_, ?_⟩
  · intro code status msg h
    constructor <;> simp [errorCode, classifyCodes, h]
  · intro code status msg hs hc
    have hnb : ¬(code = "BlobNotFound" ∨ status = 404) := by
      rintro (h | h)
      · rw [hc] at h; exact absurd h (by decide)
      · exact hs h
    constructor <;> simp [errorCode, classifyCodes, hnb, hc, hs]
  · intro msg h
    simp [errorCode, h]
  · intro code status msg h1 h2 h3
    have hnb : ¬(code = "BlobNotFound" ∨ status = 404) := by
      rintro (h | h)
      · exact h1 h
      · exact h3 h
    constructor <;> simp [errorCode, classifyCodes, hnb, h2]
  · intro msg h
    simp [errorCode, h]

/-- Witness for C4 at concrete errors: a 404 response, an auth-failure code,
a DNS host-lookup failure, and an uncategorised error (including a structured
error whose message mentions "no such host", which stays Unknown because the
structured code is consulted first). -/
theorem errorCode_classification_witness :
    errorCode (.storageErr "BlobNotFound" 409 []) = .notFound ∧
      errorCode (.respErr "Busy" 404 []) = .notFound ∧
      errorCode (.storageErr "AuthenticationFailed" 403 []) = .permissionDenied ∧
      errorCode (.plainErr noSuchHost) = .notFound ∧
      errorCode (.storageErr "ServerBusy" 503 noSuchHost) = .unknown ∧
      errorCode (.plainErr ['b', 'o', 'o', 'm']) = .unknown := by
  refine ⟨?_, ?_, ?_, ?_, ?_, ?_⟩
  · exact (errorCode_classification.1 "BlobNotFound" 409 [] (Or.inl rfl)).1
  · exact (errorCode_classification.1 "Busy" 404 [] (Or.inr rfl)).2
  · exact (errorCode_classification.2.1 "AuthenticationFailed" 403 [] (by decide) rfl).1
  · exact errorCode_classification.2.2.1 noSuchHost (by decide)
  · exact (errorCode_classification.2.2.2.1 "ServerBusy" 503 noSuchHost (by decide)
      (by decide) (by decide)).1
  · exact errorCode_classification.2.2.2.2 ['b', 'o', 'o', 'm'] (by decide)

/-! Copy polling loop (`bucket.Copy`, azureblob.go lines 495-514). -/

/-- Azure copy status values. -/
inductive CopyStatus where
  | pending
  | success
  | aborted
  | failed
  deriving DecidableEq, Repr

/-- One iteration's input to the polling loop: either `GetProperties`
succeeded with a fresh copy status, or it returned an error (`ctxErr` records
whether the caller's context was cancelled at that moment). On error the
response struct is the zero value, whose `CopyStatus` pointer is nil. -/
inductive PollStep where
  | ok (st : CopyStatus)
  | fail (ctxErr : Bool)
  deriving DecidableEq, Repr

/-- Outcome of the polling loop. `nilDeref` models the Go run-time panic on
`copyStatus = *propertiesResp.CopyStatus` when `propertiesResp` is the
zero-value response of a failed `GetProperties` call. `outOfPolls` is the
artefact of modelling the unbounded loop against a finite trace and is
unreachable for traces that reach a terminal status. -/
inductive CopyOutcome where
  | ok
  | copyFailedStatus (st : CopyStatus)
  | errReturned
  | nilDeref
  | outOfPolls
  deriving DecidableEq, Repr

/-- The polling loop of `Copy`, stepped against a trace of `GetProperties`
results. Faithful to the source: on a `GetProperties` error the loop returns
the error only when the context is cancelled or this is the third error;
otherwise it falls through to `copyStatus = *propertiesResp.CopyStatus`,
which dereferences the nil pointer of the zero-value response. -/
def copyLoop : CopyStatus → Nat → List PollStep → CopyOutcome
  | st, nErrors, polls =>
    if st = .pending then
      match polls with
      | [] => .outOfPolls
      | .ok st' :: rest => copyLoop st' nErrors rest
      | .fail ctxErr :: _ =>
        if ctxErr ∨ nErrors + 1 = 3 then .errReturned
        else .nilDeref
    else if st = .success then .ok
    else .copyFailedStatus st

/-- C5: a single transient polling failure is NOT tolerated. With the copy
pending and the first `GetProperties` poll failing (no cancellation, first
error), the loop neither continues polling nor returns the error: it
dereferences the nil `CopyStatus` of the zero-value response (a run-time
panic), even though successful polls follow. The healthy path (three pending
polls then success) and the third-consecutive-error path are shown for
contrast. -/
theorem copy_polling_transient_failure_bug :
    copyLoop .pending 0 [.fail false, .ok .pending, .ok .success] = .nilDeref ∧
      copyLoop .pending 0 [.fail false, .ok .pending, .ok .success] ≠ .ok ∧
      copyLoop .pending 0 [.ok .pending, .ok .pending, .ok .success] = .ok ∧
      copyLoop .pending 2 [.fail false] = .errReturned := by
  refine ⟨?_, ?_, ?_, ?_⟩ <;> decide

/-! Paginated listing (`bucket.ListPaged`, azureblob.go lines 714-797). -/

/-- The driver's fixed default page size (azureblob.go line 120). -/
def defaultPageSize : Int := 1000

/-- The backend's own default page size, per the comment on line 120. -/
def azureSDKDefaultPageSize : Int := 5000

/-- The page size `ListPaged` puts into the backend request: the caller's
value, or `defaultPageSize` when the caller passed 0. -/
def effectivePageSize (pageSize : Int) : Int :=
  if pageSize = 0 then defaultPageSize else pageSize

/-- A blob item of the backend's hierarchy-segment response (name is the
escaped key stored at the service). -/
structure BlobItemM where
  name : List Char
  contentLength : Int
  modTime : Nat
  deriving DecidableEq, Repr

/-- A `driver.ListObject` as built by `ListPaged`. -/
structure ListObjectM where
  key : String
  size : Int
  isDir : Bool
  modTime : Nat
  deriving DecidableEq, Repr

/-- Key order used by the final `sort.Slice` call. -/
def objLE (a b : ListObjectM) : Prop := a.key ≤ b.key

instance : DecidableRel objLE := fun a b => inferInstanceAs (Decidable (a.key ≤ b.key))

instance : IsTotal ListObjectM objLE := ⟨fun a b => le_total a.key b.key⟩

instance : IsTrans ListObjectM objLE := ⟨fun _ _ _ h1 h2 => le_trans h1 h2⟩

/-- Page assembly of `ListPaged`: prefixes become size-0 directory entries,
blob items become concrete entries (keys unescaped in both cases), appended
in that order; when both groups are non-empty the combined slice is sorted by
key. The `sort.Slice` call is embedded as a sort with respect to `objLE`. -/
def listPageObjects (prefixes : List (List Char)) (items : List BlobItemM) :
    List ListObjectM :=
  let objs := prefixes.map (fun p => ⟨⟨unescapeKey p⟩, 0, true, 0⟩) ++
    items.map (fun it => ⟨⟨unescapeKey it.name⟩, it.contentLength, false, it.modTime⟩)
  if 0 < prefixes.length ∧ 0 < items.length then List.insertionSort objLE objs else objs

/-- C6: `ListPaged` with `pageSize = 0` requests pages of the fixed default
size 1000, which is smaller than the backend's own default of 5000; and
whenever the returned page contains both prefix entries and concrete object
entries, the combined `Objects` slice is sorted ascending by key. -/
theorem listPaged_pageSize_and_sorting :
    (effectivePageSize 0 = 1000 ∧ defaultPageSize < azureSDKDefaultPageSize) ∧
      ∀ (prefixes : List (List Char)) (items : List BlobItemM),
        prefixes ≠ [] → items ≠ [] → (listPageObjects prefixes items).Sorted objLE := by
  constructor
  · constructor <;> decide
  · intro prefixes items h1 h2
    have hc : 0 < prefixes.length ∧ 0 < items.length :=
      ⟨List.length_pos.mpr h1, List.length_pos.mpr h2⟩
    simp only [listPageObjects, if_pos hc]
    exact List.sorted_insertionSort objLE _

/-- Witness for C6 at a concrete page holding one prefix and one item. -/
theorem listPaged_pageSize_and_sorting_witness :
    effectivePageSize 0 = 1000 ∧
      (listPageObjects [['p']] [⟨['a'], 1, 5⟩]).Sorted objLE :=
  ⟨listPaged_pageSize_and_sorting.1.1,
    listPaged_pageSize_and_sorting.2 [['p']] [⟨['a'], 1, 5⟩] (by decide) (by decide)⟩

/-! Signed URLs (`bucket.SignedURL`, azureblob.go lines 800-841). -/

/-- Modelled from the spec: how the returned error is tagged in the portable
taxonomy. Errors built with the gcerr constructor carry that portable code
(the source tags only the content-type rejection, with Unimplemented); errors
built with plain `fmt.Errorf` carry no portable code. -/
inductive ErrTag where
  | unimplementedTag
  | invalidArgumentTag
  | untagged
  deriving DecidableEq, Repr

/-- An error returned by a driver method, with its portable tag. -/
structure DriverErr where
  tag : ErrTag
  msg : String
  deriving DecidableEq, Repr

/-- Azure SAS permission flags set by the method switch. -/
structure SASPerms where
  read : Bool
  create : Bool
  write : Bool
  delete : Bool
  deriving DecidableEq, Repr

/-- Result of `SignedURL`'s validation phase. `proceedToSign` means control
reached the signing call with the given permissions; both error outcomes are
produced before any backend call. -/
inductive SigOutcome where
  | err (e : DriverErr)
  | proceedToSign (perms : SASPerms)
  deriving DecidableEq, Repr

/-- The validation phase of `SignedURL`, in source order: the content-type
check comes first and returns Unimplemented; then the method switch maps
GET/PUT/DELETE to permission flags and rejects any other method with a plain
`fmt.Errorf` ("unsupported Method ..."), carrying no portable code. -/
def signedURLValidate (method contentType : String)
    (enforceAbsentContentType : Bool) : SigOutcome :=
  if contentType ≠ "" ∨ enforceAbsentContentType = true then
    .err ⟨.unimplementedTag, "azureblob: does not enforce Content-Type on PUT"⟩
  else if method = "GET" then .proceedToSign ⟨true, false, false, false⟩
  else if method = "PUT" then .proceedToSign ⟨false, true, true, false⟩
  else if method = "DELETE" then .proceedToSign ⟨false, false, false, true⟩
  else .err ⟨.untagged, "unsupported Method " ++ method⟩

/-- C7 counterexample: with method PATCH and a non-empty ContentType the
result is the Unimplemented error, not an InvalidArgument error (the
content-type check precedes the method check); and even with an empty
ContentType, the unsupported-method rejection is a plain untagged error, not
an InvalidArgument-tagged one. -/
theorem signedURL_validation_counterexample :
    signedURLValidate "PATCH" "text/plain" false =
      .err ⟨.unimplementedTag, "azureblob: does not enforce Content-Type on PUT"⟩ ∧
      signedURLValidate "PATCH" "" false =
        .err ⟨.untagged, "unsupported Method PATCH"⟩ ∧
      ErrTag.unimplementedTag ≠ ErrTag.invalidArgumentTag ∧
      ErrTag.untagged ≠ ErrTag.invalidArgumentTag := by
  refine ⟨by decide, by decide, by decide, by decide⟩

/-- C7 amended: a non-empty ContentType or EnforceAbsentContentType = true
returns the Unimplemented error before any backend call, and this check
precedes the method check; with empty ContentType and the flag false, a
method other than GET, PUT or DELETE is rejected before any backend call with
the plain (untagged) "unsupported Method" error. -/
theorem signedURL_validation_amended :
    (∀ (method contentType : String) (enforce : Bool),
      (contentType ≠ "" ∨ enforce = true) →
      signedURLValidate method contentType enforce =
        .err ⟨.unimplementedTag, "azureblob: does not enforce Content-Type on PUT"⟩) ∧
    (∀ method : String, method ≠ "GET" → method ≠ "PUT" → method ≠ "DELETE" →
      signedURLValidate method "" false =
        .err ⟨.untagged, "unsupported Method " ++ method⟩) := by
  constructor
  · intro method contentType enforce h
    simp [signedURLValidate, h]
  · intro method h1 h2 h3
    simp [signedURLValidate, h1, h2, h3]

/-- Witness for the amended C7 at concrete requests. -/
theorem signedURL_validation_amended_witness :
    signedURLValidate "GET" "text/plain" false =
      .err ⟨.unimplementedTag, "azureblob: does not enforce Content-Type on PUT"⟩ ∧
      signedURLValidate "PATCH" "" false =
        .err ⟨.untagged, "unsupported Method PATCH"⟩ :=
  ⟨signedURL_validation_amended.1 "GET" "text/plain" false (Or.inl (by decide)),
    signedURL_validation_amended.2 "PATCH" (by decide) (by decide) (by decide)⟩

/-- The tail of `SignedURL` (azureblob.go lines 836-840): the error of
`GetSASToken` is assigned and then ignored; the URL is built from the result
regardless (a failed call leaves the zero-value SAS parameters, which encode
to the empty query string) and returned with a nil error. -/
def signedURLFinish (urlStr : String) (sasResult : Except String String) :
    Except String String :=
  let encoded := match sasResult with
    | .ok tok => tok
    | .error _ => ""
  .ok (urlStr ++ "?" ++ encoded)

/-- Control flow of the head of `NewRangeReader` (azureblob.go lines
554-574): the error of `NewBlobClient` is never checked, so the function
proceeds to the `Download` call whether or not the client was created
successfully. -/
inductive RRFlow where
  | proceedsToDownload (clientErr : Option String)
  | earlyReturn (e : String)
  deriving DecidableEq, Repr

/-- Handling of the `NewBlobClient` result in `NewRangeReader`: no branch on
the error, control always proceeds to `Download`. -/
def newRangeReaderClientStep (clientResult : Except String Unit) : RRFlow :=
  .proceedsToDownload
    (match clientResult with
      | .ok _ => none
      | .error e => some e)

/-- C8: both swallowed errors, evaluated at failing inputs. A failed
`GetSASToken` call still yields a URL with a nil error (never the signing
error), and a failed `NewBlobClient` call in `NewRangeReader` still proceeds
to the `Download` call instead of returning the error. -/
theorem signedURL_newRangeReader_swallowed_errors_bug :
    signedURLFinish "https://acct.blob.example/c/k" (.error "GetSASToken failed") =
      .ok "https://acct.blob.example/c/k?" ∧
      (∀ u e, signedURLFinish u (.error e) ≠ .error e) ∧
      newRangeReaderClientStep (.error "NewBlobClient failed") =
        .proceedsToDownload (some "NewBlobClient failed") ∧
      (∀ r, ∀ e, newRangeReaderClientStep r ≠ .earlyReturn e) := by
  refine ⟨rfl, ?_, rfl, ?_⟩
  · intro u e h
    simp [signedURLFinish] at h
  · intro r e h
    simp [newRangeReaderClientStep] at h

/-! Metadata escaping in `NewTypedWriter` (azureblob.go lines 896-915). -/

/-- Modelled from the spec: `escape.IsASCIIAlphanumeric` — ASCII letters and
digits. -/
def isASCIIAlphanumeric (c : Char) : Bool :=
  (97 ≤ c.toNat && c.toNat ≤ 122) || (65 ≤ c.toNat && c.toNat ≤ 90) ||
    (48 ≤ c.toNat && c.toNat ≤ 57)

/-- The metadata-key escape predicate of `NewTypedWriter` (lines 900-911):
a leading ASCII digit is escaped, ASCII alphanumerics and underscore are
kept, everything else is escaped. -/
def metadataPred (runes : List Char) (i : Nat) : Bool :=
  let c := runes.getD i ' '
  if i = 0 ∧ 48 ≤ c.toNat ∧ c.toNat ≤ 57 then true
  else if isASCIIAlphanumeric c then false
  else if c = '_' then false
  else true

/-- The metadata-key escaping of `NewTypedWriter`. -/
def metadataKeyEscape (k : List Char) : List Char :=
  hexEscape metadataPred k

/-- The metadata loop of `NewTypedWriter` (lines 896-916): escape each key,
fail on a duplicate escaped key with a plain `fmt.Errorf` (no portable tag),
otherwise record the escaped key with the escaped value. The iteration order
of the Go map is an input here (the entry list); the value-escaping function
is abstracted as a parameter. -/
def processMetadata (valueEsc : List Char → List Char) :
    List (List Char × List Char) → List (List Char × List Char) →
    Except DriverErr (List (List Char × List Char))
  | [], md => .ok md
  | (k, v) :: rest, md =>
    let e := metadataKeyEscape k
    if md.any (fun q => q.1 == e) then .error ⟨.untagged, "duplicate keys after escaping"⟩
    else processMetadata valueEsc rest (md ++ [(e, valueEsc v)])

theorem processMetadata_error_untagged (valueEsc : List Char → List Char) :
    ∀ (l md : List (List Char × List Char)) (e : DriverErr),
      processMetadata valueEsc l md = .error e → e.tag = .untagged := by
  intro l
  induction l with
  | nil => intro md e h; simp [processMetadata] at h
  | cons q rest ih =>
    intro md e h
    obtain ⟨k, v⟩ := q
    by_cases hd : md.any (fun q => q.1 == metadataKeyEscape k)
    · simp [processMetadata, hd] at h
      rw [← h]
    · simp only [processMetadata] at h
      rw [if_neg hd] at h
      exact ih _ e h

theorem processMetadata_ok_inj (valueEsc : List Char → List Char) :
    ∀ (l md md' : List (List Char × List Char)),
      processMetadata valueEsc l md = .ok md' →
      ((l.map (fun q => metadataKeyEscape q.1)).Nodup ∧
        ∀ q ∈ l, ∀ q' ∈ md, q'.1 ≠ metadataKeyEscape q.1) := by
  intro l
  induction l with
  | nil => intro md md' _; simp
  | cons q rest ih =>
    intro md md' h
    obtain ⟨k, v⟩ := q
    by_cases hd : md.any (fun q => q.1 == metadataKeyEscape k)
    · simp [processMetadata, hd] at h
    · simp only [processMetadata] at h
      rw [if_neg hd] at h
      obtain ⟨hnodup, hfresh⟩ := ih _ md' h
      have hmd : ∀ q' ∈ md, q'.1 ≠ metadataKeyEscape k := by
        intro q' hq' heq
        apply hd
        rw [List.any_eq_true]
        exact ⟨q', hq', by simp [heq]⟩
      refine ⟨?_, ?_⟩
      · rw [List.map_cons, List.nodup_cons]
        refine ⟨?_, hnodup⟩
        intro hmem
        rw [List.mem_map] at hmem
        obtain ⟨q1, hq1, heq1⟩ := hmem
        have := hfresh q1 hq1 (metadataKeyEscape k, valueEsc v) (by simp)
        exact this heq1.symm
      · intro q hq q' hq'
        rcases List.mem_cons.mp hq with hq | hq
        · rw [hq]; exact hmd q' hq'
        · exact hfresh q hq q' (by simp [hq'])

/-- C9 counterexample: at metadata whose two distinct keys `a\` and
`a__0x5c__` escape to the same key, `NewTypedWriter` does fail before any
backend call, but with a plain `fmt.Errorf` error carrying no portable code —
not an InvalidArgument-tagged error as claimed. -/
theorem metadata_escaping_counterexample :
    processMetadata (fun v => v)
        [(['a', '\\'], []), (['a', '_', '_', '0', 'x', '5', 'c', '_', '_'], [])] [] =
      .error ⟨.untagged, "duplicate keys after escaping"⟩ ∧
      ErrTag.untagged ≠ ErrTag.invalidArgumentTag := by
  refine ⟨rfl, by decide⟩

/-- C9 amended: a metadata key starting with an ASCII digit has that leading
digit escaped (the escape marker for the digit is a prefix of the escaped
key); and if two distinct original keys escape to the same escaped key,
`NewTypedWriter` fails before any backend call — with a plain untagged error
(not an InvalidArgument-tagged one) — rather than writing ambiguous
metadata. -/
theorem metadata_escaping_amended :
    (∀ (c : Char) (rest : List Char), 48 ≤ c.toNat → c.toNat ≤ 57 →
      escapeMarker c <+: metadataKeyEscape (c :: rest)) ∧
    (∀ (valueEsc : List Char → List Char) (l : List (List Char × List Char))
      (k1 v1 k2 v2 : List Char), (k1, v1) ∈ l → (k2, v2) ∈ l → k1 ≠ k2 →
      metadataKeyEscape k1 = metadataKeyEscape k2 →
      ∃ msg, processMetadata valueEsc l [] = .error ⟨.untagged, msg⟩) := by
  constructor
  · intro c rest h1 h2
    have hb : metadataPred (c :: rest) 0 = true := by
      simp [metadataPred, h1, h2]
    have hp : metadataKeyEscape (c :: rest) =
        escapeMarker c ++ hexEscapeAux metadataPred (c :: rest) 1 rest := by
      simp [metadataKeyEscape, hexEscape, hexEscapeAux, hb]
    exact ⟨_, hp.symm⟩
  · intro valueEsc l k1 v1 k2 v2 hm1 hm2 hne heq
    cases h : processMetadata valueEsc l [] with
    | ok md' =>
      exfalso
      obtain ⟨hnodup, _⟩ := processMetadata_ok_inj valueEsc l [] md' h
      have hinj := List.inj_on_of_nodup_map hnodup
      have : (k1, v1) = (k2, v2) := hinj hm1 hm2 heq
      exact hne (congrArg Prod.fst this)
    | error e =>
      obtain ⟨tag, msg⟩ := e
      have ht : tag = ErrTag.untagged :=
        processMetadata_error_untagged valueEsc l [] ⟨tag, msg⟩ h
      subst ht
      exact ⟨msg, rfl⟩

/-- Witness for the amended C9: the digit-led key `1a` escapes with the
marker for `1` in front, and duplicate-escaping metadata is rejected. -/
theorem metadata_escaping_amended_witness :
    (escapeMarker '1' <+: metadataKeyEscape ['1', 'a']) ∧
      ∃ msg, processMetadata (fun v => v)
          [(['a', '\\'], []), (['a', '_', '_', '0', 'x', '5', 'c', '_', '_'], [])] [] =
        .error ⟨.untagged, msg⟩ :=
  ⟨metadata_escaping_amended.1 '1' ['a'] (by decide) (by decide),
    metadata_escaping_amended.2 (fun v => v) _ ['a', '\\'] []
      ['a', '_', '_', '0', 'x', '5', 'c', '_', '_'] [] (by decide) (by decide)
      (by decide) (by decide)⟩

/-! The streaming writer (azureblob.go lines 952-998). -/

/-- Model of `writer.Write`: given whether the pipe already exists, returns the byte
count reported to the caller, whether the pipe exists afterwards, and whether
this call spawned the background upload task. An empty slice returns 0
immediately, before the pipe-creation branch. -/
def writerWrite (pipeCreated : Bool) (p : List Nat) : Nat × Bool × Bool :=
  if p.length = 0 then (0, pipeCreated, false)
  else if pipeCreated then (p.length, true, false)
  else (p.length, true, true)

/-- The pipe state after a sequence of `Write` calls on a fresh writer. -/
def runWrites (ps : List (List Nat)) : Bool :=
  ps.foldl (fun st p => (writerWrite st p).2.1) false

/-- The body `writer.Close` hands to the upload: `http.NoBody` when no write
ever created the pipe, the pipe's read side otherwise. -/
inductive UploadBody where
  | emptyBody
  | pipeBody
  deriving DecidableEq, Repr

/-- Upload decision of `writer.Close` (lines 990-998). -/
def writerCloseBody (pipeCreated : Bool) : UploadBody :=
  if pipeCreated then .pipeBody else .emptyBody

theorem runWrites_all_empty (ps : List (List Nat)) (h : ∀ p ∈ ps, p = []) :
    ∀ st : Bool, ps.foldl (fun st p => (writerWrite st p).2.1) st = st := by
  induction ps with
  | nil => intro st; simp
  | cons p rest ih =>
    intro st
    have hp : p = [] := h p (by simp)
    rw [List.foldl_cons, hp]
    exact ih (fun q hq => h q (by simp [hq])) st

/-- C10: `Write` with an empty slice returns `(0, nil)` and neither creates
the pipe nor starts the background upload task; a writer whose `Write` calls
all passed empty slices ends in the same state as a never-written writer, so
`Close` uploads the empty body (creating a zero-byte object). -/
theorem writer_empty_write_behavior :
    writerWrite false [] = (0, false, false) ∧
      ∀ ps : List (List Nat), (∀ p ∈ ps, p = []) →
        (runWrites ps = false ∧ writerCloseBody (runWrites ps) = .emptyBody) := by
  constructor
  · decide
  · intro ps h
    have hr : runWrites ps = false := runWrites_all_empty ps h false
    exact ⟨hr, by rw [hr]; decide⟩

/-- Witness for C10 at a concrete sequence of two empty writes. -/
theorem writer_empty_write_behavior_witness :
    writerWrite false [] = (0, false, false) ∧
      runWrites [[], []] = false ∧ writerCloseBody (runWrites [[], []]) = .emptyBody :=
  ⟨writer_empty_write_behavior.1,
    (writer_empty_write_behavior.2 [[], []] (by decide)).1,
    (writer_empty_write_behavior.2 [[], []] (by decide)).2⟩

end AzureBlob
